import Mathlib

/-!
Verification of the markplus probe-orchestration and digest-derivation engine.

The development shallowly embeds, on one side, the pure functions found in the
repository's probe components (the Accept-Language header builder and the TLS
cipher-support detector), and on the other side the orchestration engine
(registry, selection policy, scheduler, canonicalizer, digest engine, result
assembler).  The engine itself is not part of the source tree that was
provided; each of its definitions is modelled from the specification and says
so in its doc comment.
-/

namespace Markplus

/-! ### Lexicographic order on strings

The canonicalizer sorts mapping keys lexicographically (spec section 4.4).
We model the order on strings as the lexicographic order on their character
lists, comparing characters by code point. -/

/-- Lexicographic comparison of character lists by code point. -/
def charListLe : List Char → List Char → Bool
  | [], _ => true
  | _ :: _, [] => false
  | a :: as, b :: bs =>
      if a.toNat < b.toNat then true
      else if b.toNat < a.toNat then false
      else charListLe as bs

/-- Lexicographic comparison of strings, used to sort mapping keys. -/
def strLe (a b : String) : Bool := charListLe a.data b.data

theorem charListLe_total (a b : List Char) :
    charListLe a b = true ∨ charListLe b a = true := by
  induction a generalizing b with
  | nil => left; rfl
  | cons x xs ih =>
    cases b with
    | nil => right; rfl
    | cons y ys =>
      rcases Nat.lt_trichotomy x.toNat y.toNat with h | h | h
      · left; simp [charListLe, h]
      · have hxy : ¬ x.toNat < y.toNat := by omega
        have hyx : ¬ y.toNat < x.toNat := by omega
        rcases ih ys with h' | h'
        · left; simp [charListLe, hxy, hyx, h']
        · right; simp [charListLe, hxy, hyx, h']
      · right; simp [charListLe, h]

theorem charListLe_trans (a b c : List Char) (h1 : charListLe a b = true)
    (h2 : charListLe b c = true) : charListLe a c = true := by
  induction a generalizing b c with
  | nil => rfl
  | cons x xs ih =>
    cases b with
    | nil => simp [charListLe] at h1
    | cons y ys =>
      cases c with
      | nil => simp [charListLe] at h2
      | cons z zs =>
        simp only [charListLe] at h1 h2 ⊢
        by_cases hxy : x.toNat < y.toNat
        · by_cases hyz : y.toNat < z.toNat
          · have hxz : x.toNat < z.toNat := by omega
            simp [hxz]
          · by_cases hzy : z.toNat < y.toNat
            · simp [hyz, hzy] at h2
            · have hxz : x.toNat < z.toNat := by omega
              simp [hxz]
        · by_cases hyx : y.toNat < x.toNat
          · simp [hxy, hyx] at h1
          · by_cases hyz : y.toNat < z.toNat
            · have hxz : x.toNat < z.toNat := by omega
              simp [hxz]
            · by_cases hzy : z.toNat < y.toNat
              · simp [hyz, hzy] at h2
              · have hxz : ¬ x.toNat < z.toNat := by omega
                have hzx : ¬ z.toNat < x.toNat := by omega
                simp only [if_neg hxy, if_neg hyx] at h1
                simp only [if_neg hyz, if_neg hzy] at h2
                simp only [if_neg hxz, if_neg hzx]
                exact ih ys zs h1 h2

theorem charListLe_antisymm (a b : List Char) (h1 : charListLe a b = true)
    (h2 : charListLe b a = true) : a = b := by
  induction a generalizing b with
  | nil =>
    cases b with
    | nil => rfl
    | cons y ys => simp [charListLe] at h2
  | cons x xs ih =>
    cases b with
    | nil => simp [charListLe] at h1
    | cons y ys =>
      simp only [charListLe] at h1 h2
      by_cases hxy : x.toNat < y.toNat
      · have hyx : ¬ y.toNat < x.toNat := by omega
        simp [hxy, hyx] at h2
      · by_cases hyx : y.toNat < x.toNat
        · simp [hxy, hyx] at h1
        · simp only [if_neg hxy, if_neg hyx] at h1
          simp only [if_neg hyx, if_neg hxy] at h2
          have hnat : x.toNat = y.toNat := by omega
          have hx : x = y := Char.ext (UInt32.ext hnat)
          rw [hx, ih ys h1 h2]

theorem strLe_total (a b : String) : strLe a b = true ∨ strLe b a = true :=
  charListLe_total a.data b.data

theorem strLe_trans {a b c : String} (h1 : strLe a b = true)
    (h2 : strLe b c = true) : strLe a c = true :=
  charListLe_trans a.data b.data c.data h1 h2

theorem strLe_antisymm {a b : String} (h1 : strLe a b = true)
    (h2 : strLe b a = true) : a = b := by
  cases a; cases b
  exact congrArg String.mk (charListLe_antisymm _ _ h1 h2)

/-! ### Sorting key/value pairs by key -/

/-- Order on rendered key/value pairs: compare the keys lexicographically. -/
def pairLe (a b : String × String) : Prop := strLe a.1 b.1 = true

/-- Strict variant of the key order, used to show sorted lists with distinct
keys are unique. -/
def pairLt (a b : String × String) : Prop := strLe a.1 b.1 = true ∧ a.1 ≠ b.1

instance : DecidableRel pairLe := fun _ _ => instDecidableEqBool _ _

instance : IsTotal (String × String) pairLe := ⟨fun a b => strLe_total a.1 b.1⟩

instance : IsTrans (String × String) pairLe := ⟨fun _ _ _ => strLe_trans⟩

instance : IsAntisymm (String × String) pairLt :=
  ⟨fun _ _ h1 h2 => absurd (strLe_antisymm h1.1 h2.1) h1.2⟩

/-- Sorting of rendered key/value pairs by key, the order the canonicalizer
serializes the entries of a keyed mapping in (spec section 4.4). -/
def sortPairs (l : List (String × String)) : List (String × String) :=
  l.insertionSort pairLe

theorem sortPairs_perm (l : List (String × String)) : List.Perm (sortPairs l) l :=
  List.perm_insertionSort pairLe l

/-- Sorting by key is a deterministic function of the multiset of pairs: two
orderings of the same pairs with no duplicate key sort to the same list. -/
theorem sortPairs_eq_of_perm {l₁ l₂ : List (String × String)} (hp : List.Perm l₁ l₂)
    (hn : (l₁.map Prod.fst).Nodup) : sortPairs l₁ = sortPairs l₂ := by
  have hperm : List.Perm (sortPairs l₁) (sortPairs l₂) :=
    (sortPairs_perm l₁).trans (hp.trans (sortPairs_perm l₂).symm)
  have hs₁ : (sortPairs l₁).Sorted pairLe := List.sorted_insertionSort pairLe l₁
  have hs₂ : (sortPairs l₂).Sorted pairLe := List.sorted_insertionSort pairLe l₂
  have hn₁ : ((sortPairs l₁).map Prod.fst).Nodup :=
    ((sortPairs_perm l₁).map Prod.fst).nodup_iff.mpr hn
  have hn₂ : ((sortPairs l₂).map Prod.fst).Nodup :=
    ((sortPairs_perm l₂).map Prod.fst).nodup_iff.mpr ((hp.map Prod.fst).nodup_iff.mp hn)
  have hne₁ : (sortPairs l₁).Pairwise (fun a b => a.1 ≠ b.1) :=
    List.pairwise_map.mp hn₁
  have hne₂ : (sortPairs l₂).Pairwise (fun a b => a.1 ≠ b.1) :=
    List.pairwise_map.mp hn₂
  have ht₁ : (sortPairs l₁).Sorted pairLt :=
    (hs₁.and hne₁).imp fun h => ⟨h.1, h.2⟩
  have ht₂ : (sortPairs l₂).Sorted pairLt :=
    (hs₂.and hne₂).imp fun h => ⟨h.1, h.2⟩
  exact List.eq_of_perm_of_sorted hperm ht₁ ht₂

/-! ### Probe values and the canonicalizer -/

mutual
/-- Arbitrary serializable probe output (spec section 3, ProbeOutcome values):
a nested composition of primitives, ordered sequences and keyed mappings. -/
inductive Value where
  | vNull : Value
  | vBool : Bool → Value
  | vNum : Int → Value
  | vStr : String → Value
  | vArr : ValueList → Value
  | vObj : Fields → Value

/-- Ordered sequence of values. -/
inductive ValueList where
  | nil : ValueList
  | cons : Value → ValueList → ValueList

/-- Keyed mapping, in the host's native enumeration order. -/
inductive Fields where
  | nil : Fields
  | cons : String → Value → Fields → Fields
end

/-- Serialization of a string with surrounding quotes. -/
def quoteStr (s : String) : String := "\"" ++ s ++ "\""

/-- Serialization of one rendered key/value entry of a keyed mapping. -/
def renderPair (kv : String × String) : String := quoteStr kv.1 ++ ":" ++ kv.2

mutual
/-- Modelled from the spec: the canonicalizer (section 4.4) is not part of the
provided source tree.  Recursively serializes a value; keyed mappings are
serialized with their keys sorted lexicographically, ordered sequences keep
their element order, numbers use one fixed decimal representation. -/
def canonical : Value → String
  | .vNull => "null"
  | .vBool b => if b then "true" else "false"
  | .vNum n => toString n
  | .vStr s => quoteStr s
  | .vArr items => "[" ++ String.intercalate "," (canonList items) ++ "]"
  | .vObj fields =>
      "\x7b" ++ String.intercalate ","
        ((sortPairs (canonFields fields)).map renderPair) ++ "\x7d"

/-- Canonical forms of the elements of an ordered sequence, order preserved. -/
def canonList : ValueList → List String
  | .nil => []
  | .cons v vs => canonical v :: canonList vs

/-- Keys of a keyed mapping paired with the canonical forms of their values,
still in enumeration order (sorting happens at the enclosing serializer). -/
def canonFields : Fields → List (String × String)
  | .nil => []
  | .cons k v fs => (k, canonical v) :: canonFields fs
end

/-- Modelled from the spec: the top-level serializer of the probe-name → value
mapping of successful outcomes (section 4.4, "for the top-level
probe-name→value mapping, also sort by probe name"). -/
def canonicalTop (pairs : List (String × Value)) : String :=
  "\x7b" ++ String.intercalate ","
    ((sortPairs (pairs.map (fun p => (p.1, canonical p.2)))).map renderPair) ++ "\x7d"

/-! ### Digest engine -/

/-- Modelled from the spec: one step of the digest engine's hash (section 4.5
names no concrete function; the source tree carries none).  A 32-bit
multiplicative string hash stands in for it: deterministic, fixed-width, and
free of host-dependent state, which is all the spec requires. -/
def hashStep (h : Nat) (c : Char) : Nat := (h * 31 + c.toNat) % 4294967296

/-- Modelled from the spec: hash of a canonical form (section 4.5). -/
def strHash (s : String) : Nat := s.data.foldl hashStep 5381

/-- Lowercase hexadecimal digit of a value below 16. -/
def hexDigit (n : Nat) : Char := Char.ofNat (if n < 10 then 48 + n else 87 + n)

/-- Fixed-length lowercase hexadecimal rendering of a 32-bit value. -/
def toHex8 (n : Nat) : String :=
  String.mk ((List.range 8).map (fun i => hexDigit (n / 16 ^ (7 - i) % 16)))

/-- Modelled from the spec: the digest engine (section 4.5) — a fixed-length
digest string in one documented text encoding (lowercase hexadecimal). -/
def digestHex (s : String) : String := toHex8 (strHash s)

/-! ### The orchestration engine, modelled from the spec -/

/-- Modelled from the spec: the behavior of one probe as observed by the
scheduler (sections 4.3 and 6): a probe eventually produces one value or
raises one error after some elapsed time, or never completes. -/
inductive ProbeBehavior where
  | completes : Except String Value → Nat → ProbeBehavior
  | hangs : ProbeBehavior

/-- Modelled from the spec: a registry entry (section 3, ProbeDescriptor). -/
structure ProbeDescriptor where
  name : String
  run : ProbeBehavior
  experimental : Bool

/-- Modelled from the spec: the per-invocation configuration (section 3).
The field include' carries a trailing mark because its source name is a Lean
keyword. -/
structure Config where
  include' : List String
  exclude : List String
  timeoutMs : Nat
  collectTiming : Bool
  allowExperimental : Bool

/-- Modelled from the spec: the ConfigurationError taxonomy (section 7). -/
inductive ConfigError where
  | unknownInclude : String → ConfigError
  | experimentalNotAllowed : String → ConfigError

/-- Modelled from the spec: the selection policy (section 4.2): include
restricts to exactly the named probes (unknown name: error; explicitly
included experimental probe without the flag: error); otherwise exclude
removes named probes permissively and experimental probes are dropped unless
allowed. -/
def selectProbes (reg : List ProbeDescriptor) (cfg : Config) :
    Except ConfigError (List ProbeDescriptor) :=
  if cfg.include' = [] then
    if cfg.allowExperimental then
      .ok (reg.filter (fun d => ! decide (d.name ∈ cfg.exclude)))
    else
      .ok ((reg.filter (fun d => ! decide (d.name ∈ cfg.exclude))).filter
        (fun d => ! d.experimental))
  else
    match cfg.include'.find? (fun n => ! decide (n ∈ reg.map (fun d => d.name))) with
    | some n => .error (.unknownInclude n)
    | none =>
      if cfg.allowExperimental then
        .ok (reg.filter (fun d => decide (d.name ∈ cfg.include')))
      else
        match (reg.filter (fun d => decide (d.name ∈ cfg.include'))).find?
            (fun d => d.experimental) with
        | some d => .error (.experimentalNotAllowed d.name)
        | none => .ok (reg.filter (fun d => decide (d.name ∈ cfg.include')))

/-- Modelled from the spec: the status part of a ProbeOutcome (section 3). -/
inductive OutcomeStatus where
  | success : Value → OutcomeStatus
  | failure : String → OutcomeStatus
  | timedOut : OutcomeStatus

/-- Modelled from the spec: one ProbeOutcome (section 3). -/
structure ProbeOutcome where
  status : OutcomeStatus
  durationMs : Nat

/-- Modelled from the spec: the per-probe race of execution against the
timeoutMs timer (section 4.3).  Completion strictly before the budget wins
the race; otherwise the timer fires and the outcome is TimedOut with
durationMs equal to timeoutMs. -/
def outcomeOf (b : ProbeBehavior) (timeoutMs : Nat) : ProbeOutcome :=
  match b with
  | .completes (.ok v) d => if d < timeoutMs then ⟨.success v, d⟩ else ⟨.timedOut, timeoutMs⟩
  | .completes (.error r) d => if d < timeoutMs then ⟨.failure r, d⟩ else ⟨.timedOut, timeoutMs⟩
  | .hangs => ⟨.timedOut, timeoutMs⟩

/-- Holds when the timeout timer fires before the probe completes. -/
def timerFiresFirst (b : ProbeBehavior) (timeoutMs : Nat) : Prop :=
  match b with
  | .completes _ d => timeoutMs ≤ d
  | .hangs => True

/-- Modelled from the spec: the scheduler/aggregator (section 4.3) — one
outcome per selected probe, keyed by name.  The table is produced here in
selection order; completion-order independence is proved over arbitrary
permutations of the table. -/
def runOutcomes (sel : List ProbeDescriptor) (timeoutMs : Nat) :
    List (String × ProbeOutcome) :=
  sel.map (fun d => (d.name, outcomeOf d.run timeoutMs))

/-- Modelled from the spec: the public component of one outcome (section 4.6):
successes carry their value, failures and timeouts become null. -/
def componentOf (o : ProbeOutcome) : Option Value :=
  match o.status with
  | .success v => some v
  | .failure _ => none
  | .timedOut => none

/-- Modelled from the spec: the public components map (section 4.6). -/
def componentsOf (outs : List (String × ProbeOutcome)) : List (String × Option Value) :=
  outs.map (fun p => (p.1, componentOf p.2))

/-- Modelled from the spec: the (name, value) pairs of the successful outcomes,
the only data the canonicalizer consumes (section 2, data flow). -/
def successes (outs : List (String × ProbeOutcome)) : List (String × Value) :=
  outs.filterMap (fun p =>
    match p.2.status with
    | .success v => some (p.1, v)
    | .failure _ => none
    | .timedOut => none)

/-- Modelled from the spec: digest of an outcome table (sections 4.4 and 4.5):
hash of the canonical form of the successful (name, value) pairs. -/
def digestOf (outs : List (String × ProbeOutcome)) : String :=
  digestHex (canonicalTop (successes outs))

/-- Modelled from the spec: the public result record (section 3 and section 6).
The hash field is named thumbmark following the public usage in
src/README.md and src/examples/nextjs.tsx (result.thumbmark). -/
structure FingerprintResult where
  thumbmark : String
  components : List (String × Option Value)
  timing : Option (List (String × Nat))

/-- Modelled from the spec: the result assembler (section 4.6). -/
def assemble (outs : List (String × ProbeOutcome)) (cfg : Config) : FingerprintResult :=
  { thumbmark := digestOf outs
    components := componentsOf outs
    timing :=
      if cfg.collectTiming then some (outs.map (fun p => (p.1, p.2.durationMs))) else none }

/-- Modelled from the spec: the public entry point (section 6): resolve the
selection, run every selected probe against the shared budget, and assemble
the result; only a ConfigurationError propagates to the caller. -/
def getThumbmark (reg : List ProbeDescriptor) (cfg : Config) :
    Except ConfigError FingerprintResult :=
  (selectProbes reg cfg).map (fun sel => assemble (runOutcomes sel cfg.timeoutMs) cfg)

/-- Top-level keys of the result object that getThumbmark resolves with, as
exposed to callers in src/README.md (Basic Usage reads result.thumbmark and
result.components) and src/examples/nextjs.tsx (reads result.thumbmark). -/
def fingerprintResultKeys : List String := ["thumbmark", "components"]

/-- Digest of the canonical empty form: the fixed value every run with zero
successful outcomes hashes to (spec sections 4.3 and 8). -/
def emptyFormDigest : String := digestHex (canonicalTop [])

/-! ### Embedding of constructAcceptLanguageHeader
from src/src/components/headers/index.ts (lines 155-164). -/

/-- Quality value assigned to the language at the given index, scaled to
tenths.  The source computes Math.max(0.1, 1.0 - index * 0.1) in JavaScript
floating point and rounds with toFixed(1); every such value lies within
5e-16 of a tenth boundary, far inside the 5e-2 rounding tolerance of
toFixed(1), so the computation is exact in tenths. -/
def qualityTenths (index : Nat) : Nat := max 1 (10 - index)

/-- Rendering of a tenths-scaled quality with exactly one decimal digit,
mirroring Number.prototype.toFixed(1) on the clamped quality values. -/
def toFixed1 (tenths : Nat) : String :=
  toString (tenths / 10) ++ "." ++ toString (tenths % 10)

/-- Embedding of constructAcceptLanguageHeader: the empty list maps to the
empty string; otherwise each language is rendered (the first unchanged, the
rest with a quality suffix) and the renderings are joined with a comma and a
space. -/
def constructAcceptLanguageHeader (languages : List String) : String :=
  if languages.length = 0 then ""
  else
    String.intercalate ", " (languages.mapIdx (fun index lang =>
      if index = 0 then lang
      else lang ++ ";q=" ++ toFixed1 (qualityTenths index)))

/-! ### Embedding of detectCipherSupport
from src/unnamed/part_000 (lines 249-314). -/

/-- Host crypto capabilities the TLS probe's cipher detector depends on: one
flag per generateKey call that can succeed or throw, plus the modern-browser
inference.  Abstracting the host this way keeps the detector itself a pure
function of the environment. -/
structure CryptoEnv where
  subtleAvailable : Bool
  aesGcm128 : Bool
  aesGcm256 : Bool
  modernBrowser : Bool
  ecdhP256 : Bool
  rsaOaep2048 : Bool

/-- Embedding of detectCipherSupport.  Each try block of the source is one
conditional group: inside the AES-GCM block the 128-bit key generation comes
first, so its failure skips both pushes, while a failure of the 256-bit
generation alone still leaves the 128-bit cipher pushed. -/
def detectCipherSupport (env : CryptoEnv) : List String :=
  if !env.subtleAvailable then []
  else
    (if env.aesGcm128 then
        "TLS_AES_128_GCM_SHA256" ::
          (if env.aesGcm256 then ["TLS_AES_256_GCM_SHA384"] else [])
      else [])
    ++ (if env.modernBrowser then ["TLS_CHACHA20_POLY1305_SHA256"] else [])
    ++ (if env.ecdhP256 then
          ["TLS_ECDHE_RSA_WITH_AES_128_GCM_SHA256",
           "TLS_ECDHE_RSA_WITH_AES_256_GCM_SHA384"] else [])
    ++ (if env.rsaOaep2048 then
          ["TLS_RSA_WITH_AES_128_GCM_SHA256",
           "TLS_RSA_WITH_AES_256_GCM_SHA384"] else [])

/-! ### Helper lemmas -/

theorem mapIdx_congr (f g : Nat → String → String) (h : ∀ i s, f i s = g i s)
    (l : List String) : l.mapIdx f = l.mapIdx g :=
  congrArg (fun f => List.mapIdx f l) (funext fun i => funext fun s => h i s)

theorem componentsOf_keys (sel : List ProbeDescriptor) (t : Nat) :
    (componentsOf (runOutcomes sel t)).map Prod.fst = sel.map (fun d => d.name) := by
  simp [componentsOf, runOutcomes, List.map_map, Function.comp]

theorem lookup_componentsOf (sel : List ProbeDescriptor) (t : Nat)
    (d : ProbeDescriptor) (hd : d ∈ sel) (hn : (sel.map (fun p => p.name)).Nodup) :
    (componentsOf (runOutcomes sel t)).lookup d.name =
      some (componentOf (outcomeOf d.run t)) := by
  induction sel with
  | nil => cases hd
  | cons e es ih =>
    have hstep : componentsOf (runOutcomes (e :: es) t) =
        (e.name, componentOf (outcomeOf e.run t)) :: componentsOf (runOutcomes es t) := rfl
    rw [hstep]
    rw [List.map_cons, List.nodup_cons] at hn
    rcases List.mem_cons.mp hd with rfl | hmem
    · simp [List.lookup]
    · have hne : d.name ≠ e.name := by
        intro hcontra
        exact hn.1 (hcontra ▸ List.mem_map_of_mem (fun p => p.name) hmem)
      have hbeq : (d.name == e.name) = false := beq_eq_false_iff_ne.mpr hne
      simp only [List.lookup, hbeq]
      exact ih hmem hn.2

theorem selectProbes_ok_sublist {reg : List ProbeDescriptor} {cfg : Config}
    {sel : List ProbeDescriptor} (h : selectProbes reg cfg = .ok sel) :
    List.Sublist sel reg := by
  unfold selectProbes at h
  split at h
  · split at h
    · injection h with h; subst h; exact List.filter_sublist _
    · injection h with h; subst h
      exact (List.filter_sublist _).trans (List.filter_sublist _)
  · split at h
    · exact Except.noConfusion h
    · split at h
      · injection h with h; subst h; exact List.filter_sublist _
      · split at h
        · exact Except.noConfusion h
        · injection h with h; subst h; exact List.filter_sublist _

/-! ### Claim theorems -/

/-- C9: constructAcceptLanguageHeader maps the empty language list to the
empty string, and every non-empty list to the join, separated by
comma-space, of the first language unchanged with, for each subsequent
position j (index i = j + 1), the entry lang;q=Q where Q is
max(0.1, 1.0 - 0.1 * i) — in tenths, max 1 (9 - j) — rendered with exactly
one decimal digit: the first language never carries a q-value and quality
values never fall below 0.1. -/
theorem constructAcceptLanguageHeader_spec :
    constructAcceptLanguageHeader [] = "" ∧
    ∀ (l0 : String) (rest : List String),
      constructAcceptLanguageHeader (l0 :: rest) =
        String.intercalate ", "
          (l0 :: rest.mapIdx (fun j lang =>
            lang ++ ";q=0." ++ toString (max 1 (9 - j)))) := by
  refine ⟨rfl, fun l0 rest => ?_⟩
  have key : ∀ t : Nat, 1 ≤ t → t < 10 → ∀ lang : String,
      lang ++ ";q=" ++ toFixed1 t = lang ++ ";q=0." ++ toString t := by
    intro t h1 h2 lang
    rw [String.append_assoc, String.append_assoc]
    refine congrArg (fun s => lang ++ s) ?_
    interval_cases t <;> rfl
  unfold constructAcceptLanguageHeader
  rw [if_neg (by simp)]
  refine congrArg (String.intercalate ", ") ?_
  rw [List.mapIdx_cons]
  show l0 :: _ = l0 :: _
  refine congrArg (fun xs => l0 :: xs) ?_
  refine mapIdx_congr _ _ (fun j lang => ?_) rest
  show (if j + 1 = 0 then lang else lang ++ ";q=" ++ toFixed1 (qualityTenths (j + 1))) = _
  rw [if_neg (Nat.succ_ne_zero j)]
  have hq : qualityTenths (j + 1) = max 1 (9 - j) := by
    unfold qualityTenths; omega
  rw [hq]
  exact key (max 1 (9 - j)) (le_max_left _ _) (by omega) lang

/-- C10: in the cipher list computed by detectCipherSupport,
TLS_AES_256_GCM_SHA384 can only be present if TLS_AES_128_GCM_SHA256 is also
present — both pushes share one try block whose 128-bit key generation comes
first — while the converse implication does not hold. -/
theorem detectCipherSupport_aes256_implies_aes128 :
    (∀ env : CryptoEnv,
        "TLS_AES_256_GCM_SHA384" ∈ detectCipherSupport env →
        "TLS_AES_128_GCM_SHA256" ∈ detectCipherSupport env) ∧
    (∃ env : CryptoEnv,
        "TLS_AES_128_GCM_SHA256" ∈ detectCipherSupport env ∧
        "TLS_AES_256_GCM_SHA384" ∉ detectCipherSupport env) := by
  constructor
  · intro env h
    rcases env with ⟨s, a1, a2, m, e, r⟩
    revert h
    cases s <;> cases a1 <;> cases a2 <;> cases m <;> cases e <;> cases r <;> decide
  · exact ⟨⟨true, true, false, false, false, false⟩, by decide, by decide⟩

/-- Witness for C10: in an environment supporting every capability, the
256-bit cipher is present, so the implication instantiates to a concrete
membership of the 128-bit cipher. -/
theorem detectCipherSupport_aes256_implies_aes128_witness :
    "TLS_AES_128_GCM_SHA256" ∈
      detectCipherSupport ⟨true, true, true, true, true, true⟩ :=
  detectCipherSupport_aes256_implies_aes128.1
    ⟨true, true, true, true, true, true⟩ (by decide)

/-- Spec section 8 canonicalization example, first form: the mapping
a: 1, b: (y: 2, x: 1), nested keys in the order y then x. -/
def exampleValueYX : Value :=
  .vObj (.cons "a" (.vNum 1)
    (.cons "b" (.vObj (.cons "y" (.vNum 2) (.cons "x" (.vNum 1) .nil))) .nil))

/-- Spec section 8 canonicalization example, second form: the same data with
the nested keys in the order x then y. -/
def exampleValueXY : Value :=
  .vObj (.cons "a" (.vNum 1)
    (.cons "b" (.vObj (.cons "x" (.vNum 1) (.cons "y" (.vNum 2) .nil))) .nil))

/-- C2: canonicalization is insensitive to mapping-key order — any two keyed
mappings whose entries are a permutation of one another (no duplicate keys)
canonicalize identically, and in particular the spec's example pair
a:1, b:(y:2, x:1) versus a:1, b:(x:1, y:2) shares one canonical form and one
digest — while reordering the elements of an ordered sequence changes the
canonical form. -/
theorem canonical_key_order_insensitive :
    (∀ fs₁ fs₂ : Fields, List.Perm (canonFields fs₁) (canonFields fs₂) →
        ((canonFields fs₁).map Prod.fst).Nodup →
        canonical (.vObj fs₁) = canonical (.vObj fs₂)) ∧
    canonical exampleValueYX = canonical exampleValueXY ∧
    digestHex (canonical exampleValueYX) = digestHex (canonical exampleValueXY) ∧
    canonical (.vArr (.cons (.vNum 1) (.cons (.vNum 2) .nil))) ≠
      canonical (.vArr (.cons (.vNum 2) (.cons (.vNum 1) .nil))) := by
  have hcanon : canonical exampleValueYX = canonical exampleValueXY := by decide
  refine ⟨fun fs₁ fs₂ hp hn => ?_, hcanon, congrArg digestHex hcanon, by decide⟩
  have e1 : canonical (.vObj fs₁) =
      "\x7b" ++ String.intercalate ","
        ((sortPairs (canonFields fs₁)).map renderPair) ++ "\x7d" := rfl
  have e2 : canonical (.vObj fs₂) =
      "\x7b" ++ String.intercalate ","
        ((sortPairs (canonFields fs₂)).map renderPair) ++ "\x7d" := rfl
  rw [e1, e2, sortPairs_eq_of_perm hp hn]

/-- Witness for C2: the general key-order conjunct applied to the two nested
mappings of the spec's example, whose entry lists are transposes. -/
theorem canonical_key_order_insensitive_witness :
    canonical (.vObj (.cons "y" (.vNum 2) (.cons "x" (.vNum 1) .nil))) =
      canonical (.vObj (.cons "x" (.vNum 1) (.cons "y" (.vNum 2) .nil))) :=
  canonical_key_order_insensitive.1
    (.cons "y" (.vNum 2) (.cons "x" (.vNum 1) .nil))
    (.cons "x" (.vNum 1) (.cons "y" (.vNum 2) .nil))
    (List.Perm.swap ("x", "1") ("y", "2") [])
    (by decide)

/-- Default configuration used by concrete witnesses: no restriction, the
documented 5000 ms budget, no timing, no experimental probes. -/
def cfgW : Config := ⟨[], [], 5000, false, false⟩

/-- C1: the digest is a pure function of the set of successful (name, value)
pairs: for every configuration, any two outcome tables whose successful
pairs are permutations of one another (probe names unique) assemble to the
identical digest string, independent of the order probes completed in and
of the failed or timed-out entries around them. -/
theorem digest_pure_function_of_success_set (cfg : Config)
    (t₁ t₂ : List (String × ProbeOutcome))
    (hp : List.Perm (successes t₁) (successes t₂))
    (hn : ((successes t₁).map Prod.fst).Nodup) :
    (assemble t₁ cfg).thumbmark = (assemble t₂ cfg).thumbmark := by
  show digestOf t₁ = digestOf t₂
  have hp' := hp.map (fun p => (p.1, canonical p.2))
  have hn' : (((successes t₁).map (fun p => (p.1, canonical p.2))).map Prod.fst).Nodup := by
    simpa [List.map_map, Function.comp] using hn
  unfold digestOf canonicalTop
  rw [sortPairs_eq_of_perm hp' hn']

/-- Outcome table of one run: probes a and c succeed, b fails. -/
def witnessTableA : List (String × ProbeOutcome) :=
  [("a", ⟨.success (.vNum 1), 5⟩), ("b", ⟨.failure "boom", 7⟩),
   ("c", ⟨.success (.vStr "u"), 3⟩)]

/-- Outcome table of a second run: the same successful (name, value) pairs
completing in the opposite order, with different durations, and with b now
timing out instead of failing. -/
def witnessTableB : List (String × ProbeOutcome) :=
  [("c", ⟨.success (.vStr "u"), 9⟩), ("b", ⟨.timedOut, 100⟩),
   ("a", ⟨.success (.vNum 1), 6⟩)]

/-- Witness for C1: the two concrete runs above assemble to the identical
digest string. -/
theorem digest_pure_function_of_success_set_witness :
    (assemble witnessTableA cfgW).thumbmark = (assemble witnessTableB cfgW).thumbmark :=
  digest_pure_function_of_success_set cfgW witnessTableA witnessTableB
    (List.Perm.swap ("c", Value.vStr "u") ("a", Value.vNum 1) [])
    (by decide)

theorem selectProbes_include_ok {reg : List ProbeDescriptor} {cfg : Config}
    {sel : List ProbeDescriptor} (hne : cfg.include' ≠ [])
    (h : selectProbes reg cfg = .ok sel) :
    sel = reg.filter (fun d => decide (d.name ∈ cfg.include')) ∧
    ∀ n ∈ cfg.include', n ∈ reg.map (fun d => d.name) := by
  unfold selectProbes at h
  rw [if_neg hne] at h
  split at h
  · exact Except.noConfusion h
  · rename_i hfind
    have hall : ∀ n ∈ cfg.include', n ∈ reg.map (fun d => d.name) := by
      intro n hn
      have := List.find?_eq_none.mp hfind n hn
      simpa using this
    refine ⟨?_, hall⟩
    split at h
    · injection h with h; exact h.symm
    · split at h
      · exact Except.noConfusion h
      · injection h with h; exact h.symm

/-- Probe used by the concrete witnesses: a succeeds with the number 1. -/
def probeA : ProbeDescriptor := ⟨"a", .completes (.ok (.vNum 1)) 5, false⟩

/-- Probe used by the concrete witnesses: b always raises an error. -/
def probeB : ProbeDescriptor := ⟨"b", .completes (.error "boom") 3, false⟩

/-- Probe used by the concrete witnesses: c succeeds with the string u. -/
def probeC : ProbeDescriptor := ⟨"c", .completes (.ok (.vStr "u")) 4, false⟩

/-- Registry used by the concrete witnesses: probes a, b and c. -/
def regW : List ProbeDescriptor := [probeA, probeB, probeC]

/-- C3: the public entry point is total up to configuration errors — every
run either raises one ConfigurationError (selection fails, before any probe
outcome is consulted) or returns a complete FingerprintResult with exactly
one components entry per selected probe; and each probe's components entry
is a function of that probe's own behavior alone, so a probe raising an
error or timing out never raises to the caller nor changes a sibling
probe's entry. -/
theorem getThumbmark_total_and_isolated :
    (∀ (reg : List ProbeDescriptor) (cfg : Config),
        (∃ e, getThumbmark reg cfg = .error e) ∨
        (∃ r sel, selectProbes reg cfg = .ok sel ∧ getThumbmark reg cfg = .ok r ∧
          r.components.map Prod.fst = sel.map (fun d => d.name))) ∧
    (∀ (sel : List ProbeDescriptor) (t : Nat) (d : ProbeDescriptor),
        d ∈ sel → (sel.map (fun p => p.name)).Nodup →
        (componentsOf (runOutcomes sel t)).lookup d.name =
          some (componentOf (outcomeOf d.run t))) := by
  constructor
  · intro reg cfg
    cases hsel : selectProbes reg cfg with
    | error e =>
      refine Or.inl ⟨e, ?_⟩
      unfold getThumbmark
      rw [hsel]
      rfl
    | ok sel =>
      refine Or.inr ⟨assemble (runOutcomes sel cfg.timeoutMs) cfg, sel, rfl, ?_, ?_⟩
      · unfold getThumbmark
        rw [hsel]
        rfl
      · exact componentsOf_keys sel cfg.timeoutMs
  · exact lookup_componentsOf

/-- Witness for C3: the totality disjunction at the concrete registry, and
the isolation equation showing the failing probe b owns exactly its own
(null) entry. -/
theorem getThumbmark_total_and_isolated_witness :
    ((∃ e, getThumbmark regW cfgW = .error e) ∨
      (∃ r sel, selectProbes regW cfgW = .ok sel ∧ getThumbmark regW cfgW = .ok r ∧
        r.components.map Prod.fst = sel.map (fun d => d.name))) ∧
    (componentsOf (runOutcomes regW 5000)).lookup "b" =
      some (componentOf (outcomeOf probeB.run 5000)) :=
  ⟨getThumbmark_total_and_isolated.1 regW cfgW,
   getThumbmark_total_and_isolated.2 regW 5000 probeB
     (List.Mem.tail _ (List.Mem.head _)) (by decide)⟩

/-- C4: when include is non-empty, every returned result's components key
set is exactly the set of probes named in include, and if some name in
include matches no registered probe the run raises a ConfigurationError (the
unknown-include error) instead of producing a result. -/
theorem include_selection_exact (reg : List ProbeDescriptor) (cfg : Config)
    (hne : cfg.include' ≠ []) :
    (∀ r, getThumbmark reg cfg = .ok r →
        ∀ n, n ∈ r.components.map Prod.fst ↔ n ∈ cfg.include') ∧
    ((∃ n, n ∈ cfg.include' ∧ ∀ d ∈ reg, d.name ≠ n) →
        ∃ n, getThumbmark reg cfg = .error (.unknownInclude n)) := by
  constructor
  · intro r hr n
    unfold getThumbmark at hr
    cases hsel : selectProbes reg cfg with
    | error e => rw [hsel] at hr; exact Except.noConfusion hr
    | ok sel =>
      rw [hsel] at hr
      injection hr with hr
      obtain ⟨hself, hall⟩ := selectProbes_include_ok hne hsel
      subst hr
      subst hself
      rw [show (assemble (runOutcomes (reg.filter
            (fun d => decide (d.name ∈ cfg.include'))) cfg.timeoutMs) cfg).components =
          componentsOf (runOutcomes (reg.filter
            (fun d => decide (d.name ∈ cfg.include'))) cfg.timeoutMs) from rfl]
      rw [componentsOf_keys]
      constructor
      · intro hmem
        rcases List.mem_map.mp hmem with ⟨d, hd, rfl⟩
        exact of_decide_eq_true (List.mem_filter.mp hd).2
      · intro hmem
        rcases List.mem_map.mp (hall n hmem) with ⟨d, hd, rfl⟩
        exact List.mem_map_of_mem _
          (List.mem_filter.mpr ⟨hd, decide_eq_true hmem⟩)
  · rintro ⟨n, hn, hunk⟩
    unfold getThumbmark selectProbes
    rw [if_neg hne]
    cases hfind : cfg.include'.find? (fun m => ! decide (m ∈ reg.map (fun d => d.name))) with
    | none =>
      exfalso
      have hmem : n ∈ reg.map (fun d => d.name) := by
        have := List.find?_eq_none.mp hfind n hn
        simpa using this
      rcases List.mem_map.mp hmem with ⟨d, hd, hdn⟩
      exact hunk d hd hdn
    | some m =>
      exact ⟨m, rfl⟩

/-- Configuration with an include entry naming no registered probe. -/
def cfgBadInclude : Config := ⟨["a", "zzz"], [], 5000, false, false⟩

/-- Configuration restricting the run to the probes a and c. -/
def cfgIncAC : Config := ⟨["a", "c"], [], 5000, false, false⟩

/-- Witness for C4: at the concrete registry, the unknown include name zzz
raises the unknown-include error, and under include = [a, c] the key b is in
the components keys exactly when it is in include (it is in neither). -/
theorem include_selection_exact_witness :
    (∃ n, getThumbmark regW cfgBadInclude = .error (.unknownInclude n)) ∧
    ("b" ∈ (assemble (runOutcomes (regW.filter
        (fun d => decide (d.name ∈ cfgIncAC.include'))) cfgIncAC.timeoutMs)
        cfgIncAC).components.map Prod.fst ↔ "b" ∈ cfgIncAC.include') :=
  ⟨(include_selection_exact regW cfgBadInclude (by decide)).2
      ⟨"zzz", by decide, by decide⟩,
   (include_selection_exact regW cfgIncAC (by decide)).1 _ rfl "b"⟩

/-- Configuration naming include = [a, b] while also excluding b. -/
def cfgIncludeABexcludeB : Config := ⟨["a", "b"], ["b"], 5000, false, false⟩

/-- Counterexample for C5: exclusion does not hold regardless of include —
with registry a, b, c and exclude = [b], choosing include = [a, b] produces
components keys a and b, not a and c (include takes precedence and exclude
is ignored, spec section 4.2). -/
theorem exclude_not_regardless_of_include :
    (getThumbmark regW cfgIncludeABexcludeB).toOption.map
        (fun r => r.components.map Prod.fst) ≠ some ["a", "c"] ∧
    (getThumbmark regW cfgIncludeABexcludeB).toOption.map
        (fun r => r.components.map Prod.fst) = some ["a", "b"] := by
  constructor
  · decide
  · decide

/-- C5 amended: with include empty, a registry of non-experimental probes a,
b, c and exclude = [b] — or exclude = [b, nosuch] carrying an unknown name,
which is ignored rather than raising — yields a result whose components
keys are exactly a and c, for every probe behavior and remaining
configuration. -/
theorem exclude_selection (ra rb rc : ProbeBehavior) (cfg : Config)
    (hinc : cfg.include' = [])
    (hexc : cfg.exclude = ["b"] ∨ cfg.exclude = ["b", "nosuch"]) :
    ∃ r, getThumbmark [⟨"a", ra, false⟩, ⟨"b", rb, false⟩, ⟨"c", rc, false⟩] cfg
        = .ok r ∧
      r.components.map Prod.fst = ["a", "c"] := by
  rcases cfg with ⟨inc, exc, t, ct, ae⟩
  simp only at hinc hexc
  subst hinc
  rcases hexc with rfl | rfl <;> cases ae <;> exact ⟨_, rfl, rfl⟩

/-- Configuration excluding the probe b only. -/
def cfgExcB : Config := ⟨[], ["b"], 5000, false, false⟩

/-- Witness for C5 amended: the concrete registry behaviors of the witness
probes under exclude = [b] yield components keys a and c. -/
theorem exclude_selection_witness :
    ∃ r, getThumbmark [⟨"a", .completes (.ok (.vNum 1)) 5, false⟩,
        ⟨"b", .completes (.error "boom") 3, false⟩,
        ⟨"c", .completes (.ok (.vStr "u")) 4, false⟩] cfgExcB = .ok r ∧
      r.components.map Prod.fst = ["a", "c"] :=
  exclude_selection (.completes (.ok (.vNum 1)) 5) (.completes (.error "boom") 3)
    (.completes (.ok (.vStr "u")) 4) cfgExcB rfl (Or.inl rfl)

/-- C6: a selected probe whose timeout timer fires before it completes is
recorded as TimedOut with duration exactly timeoutMs, its entry in the
public components map is null, and the run as a whole still returns a
FingerprintResult. -/
theorem timeout_recorded_and_run_completes (reg : List ProbeDescriptor)
    (cfg : Config) (sel : List ProbeDescriptor)
    (hok : selectProbes reg cfg = .ok sel) (d : ProbeDescriptor) (hd : d ∈ sel)
    (hfires : timerFiresFirst d.run cfg.timeoutMs)
    (hnodup : (reg.map (fun p => p.name)).Nodup) :
    outcomeOf d.run cfg.timeoutMs = ⟨.timedOut, cfg.timeoutMs⟩ ∧
    (componentsOf (runOutcomes sel cfg.timeoutMs)).lookup d.name = some none ∧
    ∃ r, getThumbmark reg cfg = .ok r := by
  have hout : outcomeOf d.run cfg.timeoutMs = ⟨.timedOut, cfg.timeoutMs⟩ := by
    cases hb : d.run with
    | hangs => rfl
    | completes res dur =>
      rw [hb] at hfires
      have hnl : ¬ dur < cfg.timeoutMs := Nat.not_lt.mpr hfires
      cases res with
      | ok v => simp only [outcomeOf, if_neg hnl]
      | error msg => simp only [outcomeOf, if_neg hnl]
  have hseln : (sel.map (fun p => p.name)).Nodup :=
    hnodup.sublist ((selectProbes_ok_sublist hok).map (fun p => p.name))
  refine ⟨hout, ?_, ⟨assemble (runOutcomes sel cfg.timeoutMs) cfg, ?_⟩⟩
  · rw [lookup_componentsOf sel cfg.timeoutMs d hd hseln, hout]
    rfl
  · unfold getThumbmark
    rw [hok]
    rfl

/-- Probe used by the concrete witnesses: h never completes. -/
def probeHang : ProbeDescriptor := ⟨"h", .hangs, false⟩

/-- Registry containing one succeeding probe and one hanging probe. -/
def regHang : List ProbeDescriptor := [probeA, probeHang]

/-- Witness for C6: the hanging probe h is recorded as TimedOut with the
budget 5000, its components entry is null, and the run still returns a
result next to the succeeding probe a. -/
theorem timeout_recorded_and_run_completes_witness :
    outcomeOf probeHang.run 5000 = ⟨.timedOut, 5000⟩ ∧
    (componentsOf (runOutcomes regHang 5000)).lookup "h" = some none ∧
    ∃ r, getThumbmark regHang cfgW = .ok r :=
  timeout_recorded_and_run_completes regHang cfgW regHang rfl probeHang
    (List.Mem.tail _ (List.Mem.head _)) trivial (by decide)

/-- C7: a run with zero successful outcomes is not an error — whenever
selection succeeds and no probe succeeds, the run returns a result whose
digest is the fixed digest of the canonical empty form; excluding every
registered probe moreover yields an empty components map; and that fixed,
documented empty-form digest is the string 004ef727. -/
theorem empty_run_fixed_digest :
    (∀ (reg : List ProbeDescriptor) (cfg : Config) (sel : List ProbeDescriptor),
        selectProbes reg cfg = .ok sel →
        successes (runOutcomes sel cfg.timeoutMs) = [] →
        ∃ r, getThumbmark reg cfg = .ok r ∧ r.thumbmark = emptyFormDigest) ∧
    (∀ (reg : List ProbeDescriptor) (cfg : Config),
        cfg.include' = [] → (∀ d ∈ reg, d.name ∈ cfg.exclude) →
        ∃ r, getThumbmark reg cfg = .ok r ∧ r.components = [] ∧
          r.thumbmark = emptyFormDigest) ∧
    emptyFormDigest = "004ef727" := by
  refine ⟨?_, ?_, by decide⟩
  · intro reg cfg sel hok hsucc
    refine ⟨assemble (runOutcomes sel cfg.timeoutMs) cfg, ?_, ?_⟩
    · unfold getThumbmark
      rw [hok]
      rfl
    · show digestOf (runOutcomes sel cfg.timeoutMs) = emptyFormDigest
      unfold digestOf
      rw [hsucc]
      rfl
  · intro reg cfg hinc hexc
    have hbase : reg.filter (fun d => ! decide (d.name ∈ cfg.exclude)) = [] :=
      List.filter_eq_nil_iff.mpr (fun d hd => by simp [hexc d hd])
    have hselv : selectProbes reg cfg = .ok [] := by
      unfold selectProbes
      rw [if_pos hinc, hbase]
      cases hae : cfg.allowExperimental <;> simp [hae]
    refine ⟨assemble (runOutcomes [] cfg.timeoutMs) cfg, ?_, rfl, rfl⟩
    unfold getThumbmark
    rw [hselv]
    rfl

/-- Configuration excluding every probe of the witness registry. -/
def cfgExcAll : Config := ⟨[], ["a", "b", "c"], 5000, false, false⟩

/-- Witness for C7: excluding a, b and c from the witness registry yields an
empty components map and the fixed empty-form digest. -/
theorem empty_run_fixed_digest_witness :
    ∃ r, getThumbmark regW cfgExcAll = .ok r ∧ r.components = [] ∧
      r.thumbmark = emptyFormDigest :=
  empty_run_fixed_digest.2.1 regW cfgExcAll rfl (by decide)

/-- Counterexample for C8: the public result exposes no field named digest —
the key set read by the repository's own callers (src/README.md and
src/examples/nextjs.tsx) is thumbmark and components. -/
theorem digest_key_absent_counterexample :
    ¬ ("digest" ∈ fingerprintResultKeys) := by
  decide

/-- C8 amended: the public entry point exposes its hash under the key
thumbmark, not digest: every run whose selection succeeds returns the
record whose thumbmark field is the digest string of the outcome table,
alongside the components mapping (probe name to value or null) and the
optional timing mapping. -/
theorem result_exposes_hash_under_thumbmark :
    "thumbmark" ∈ fingerprintResultKeys ∧
    ∀ (reg : List ProbeDescriptor) (cfg : Config) (sel : List ProbeDescriptor),
      selectProbes reg cfg = .ok sel →
      ∃ r, getThumbmark reg cfg = .ok r ∧
        r.thumbmark = digestOf (runOutcomes sel cfg.timeoutMs) ∧
        r.components = componentsOf (runOutcomes sel cfg.timeoutMs) ∧
        r.timing = (if cfg.collectTiming then
            some ((runOutcomes sel cfg.timeoutMs).map (fun p => (p.1, p.2.durationMs)))
          else none) := by
  refine ⟨by decide, fun reg cfg sel hok =>
    ⟨assemble (runOutcomes sel cfg.timeoutMs) cfg, ?_, rfl, rfl, rfl⟩⟩
  unfold getThumbmark
  rw [hok]
  rfl

/-- Witness for C8 amended: at the concrete registry with the default
configuration, the returned record carries the digest under thumbmark with
the components mapping and no timing. -/
theorem result_exposes_hash_under_thumbmark_witness :
    ∃ r, getThumbmark regW cfgW = .ok r ∧
      r.thumbmark = digestOf (runOutcomes regW cfgW.timeoutMs) ∧
      r.components = componentsOf (runOutcomes regW cfgW.timeoutMs) ∧
      r.timing = (if cfgW.collectTiming then
          some ((runOutcomes regW cfgW.timeoutMs).map (fun p => (p.1, p.2.durationMs)))
        else none) :=
  result_exposes_hash_under_thumbmark.2 regW cfgW regW rfl

end Markplus
